import Mathlib

/-!
Verification of the dgraph GraphQL schema generator (schemagen.go) and the
HTTP transaction gateway (the `alpha` package handlers) against their
natural-language specification.  The Go code is shallowly embedded: Go maps
keyed by strings become association-list lookups, Go byte strings become
Lean strings (with byte lengths taken via UTF-8 sizes where the Go code
indexes bytes), and calls to external collaborators (the transaction engine,
the scalar-to-storage tables defined outside these files) become explicit
function parameters.
-/

/-! ## Data model for the GraphQL schema (gqlparser ast, as used by schemagen.go) -/

/-- Kinds of type definitions in the gqlparser ast. -/
inductive TypeKind where
  | object
  | interface
  | enum
  | scalar
  | union
  | inputObject
deriving DecidableEq, Repr

/-- One argument of a directive occurrence; `valueRaw` models `arg.Value.Raw`. -/
structure DirArgument where
  name : String
  valueRaw : String
deriving DecidableEq, Repr

/-- A directive occurrence attached to a field definition. -/
structure Directive where
  name : String
  arguments : List DirArgument
deriving DecidableEq, Repr

/-- `Directives.ForName` of the gqlparser ast: first directive with the name. -/
def directivesForName (ds : List Directive) (n : String) : Option Directive :=
  ds.find? (fun d => d.name == n)

/-- `Arguments.ForName` of the gqlparser ast: first argument with the name. -/
def argumentsForName (as : List DirArgument) (n : String) : Option DirArgument :=
  as.find? (fun a => a.name == n)

/-- A field definition: `typeName` models `f.Type.Name()` (the named type at
the bottom of the type reference) and `isList` models `f.Type.Elem != nil`. -/
structure FieldDef where
  name : String
  typeName : String
  isList : Bool
  directives : List Directive
deriving DecidableEq, Repr

/-- A type definition of the ast (`ast.Definition`): name, kind, ordered
field list, list of implemented interface names, and the built-in marker. -/
structure TypeDef where
  name : String
  kind : TypeKind
  fields : List FieldDef
  interfaces : List String
  builtIn : Bool
deriving DecidableEq, Repr

/-- The empty definition, used where Go would dereference a nil
`*ast.Definition` (a missing map entry); theorems that depend on a lookup
hypothesize that it succeeds. -/
def emptyTypeDef : TypeDef :=
  { name := "", kind := TypeKind.object, fields := [], interfaces := [], builtIn := false }

/-- A compiled schema: `sch.Types`, the map from type name to definition,
modelled as the list of its entries (names are unique in a Go map, so the
first match is the match). -/
structure Schema where
  types : List TypeDef
deriving DecidableEq, Repr

/-- `sch.Types[name]` of the Go map. -/
def Schema.lookup (sch : Schema) (n : String) : Option TypeDef :=
  sch.types.find? (fun t => t.name == n)

/-! ## parentInterface (schemagen.go lines 141-155) -/

/-- The inner loops of `parentInterface`: scan the implemented interfaces in
order, returning the first whose field list contains the field name. -/
def scanInterfaces (sch : Schema) (fieldName : String) : List String → String
  | [] => ""
  | iface :: rest =>
    let interfaceDef := (sch.lookup iface).getD emptyTypeDef
    if interfaceDef.fields.any (fun f => fieldName == f.name) then iface
    else scanInterfaces sch fieldName rest

/-- `parentInterface(sch, typDef, fieldName)`: name of the interface a field
of `typDef` is inherited from, or `""` if there is none. -/
def parentInterface (sch : Schema) (typDef : TypeDef) (fieldName : String) : String :=
  if typDef.interfaces.isEmpty then ""
  else scanInterfaces sch fieldName typDef.interfaces

/-- The spec's description of `resolveNamespace`: the first implemented
interface whose field list contains the field name, else the empty string.
Stated from the spec's words, to be compared with `parentInterface`. -/
def resolveNamespaceSpec (sch : Schema) (typDef : TypeDef) (fieldName : String) : String :=
  (typDef.interfaces.find?
    (fun i => (((sch.lookup i).getD emptyTypeDef).fields).any (fun f => fieldName == f.name))).getD ""

/-! ## DgraphMapping (schemagen.go lines 157-187) -/

/-- Whether the first character list starts the second (Go's byte tests are
stated on character lists: for valid UTF-8, byte order and alignment agree
with code points, so the two coincide). -/
def listHasPre : List Char → List Char → Bool
  | [], _ => true
  | _ :: _, [] => false
  | p :: ps, s :: ss => p == s && listHasPre ps ss

/-- `strings.HasPrefix(s, p)`. -/
def hasPre (s p : String) : Bool := listHasPre p.data s.data

/-- `strings.HasSuffix(s, p)`. -/
def hasSuf (s p : String) : Bool := listHasPre p.data.reverse s.data.reverse

/-- Remove the first `n` characters (a Go slice `s[n:]`). -/
def strDrop (s : String) (n : Nat) : String := ⟨s.data.drop n⟩

/-- Remove the last `n` characters (a Go slice `s[:len(s)-n]`). -/
def strDropRight (s : String) (n : Nat) : String := ⟨s.data.take (s.data.length - n)⟩

/-- `strings.TrimPrefix`. -/
def trimPre (s p : String) : String :=
  if hasPre s p then strDrop s p.data.length else s

/-- `strings.TrimSuffix`. -/
def trimSuf (s p : String) : String :=
  if hasSuf s p then strDropRight s p.data.length else s

/-- The body of the `DgraphMapping` loop for one type of the schema: the
(key, value) pairs this type contributes to the predicate mapping.  A type is
skipped when built-in, named `query`/`mutation`, or of a kind other than
Object/Interface.  A name of the form `Delete<X>Payload` (prefix `Delete`
and suffix `Payload`) is first resolved back to the type `X` (in Go a
missing `X` would be a nil dereference; here it contributes nothing and
theorems hypothesize the lookup succeeds). -/
def mappingEntriesFor (sch : Schema) (inputTyp : TypeDef) : List (String × String) :=
  if inputTyp.builtIn || inputTyp.name == "query" || inputTyp.name == "mutation" ||
      (inputTyp.kind != TypeKind.object && inputTyp.kind != TypeKind.interface) then []
  else
    let originalName := inputTyp.name
    let stripped : Bool := hasPre inputTyp.name "Delete" && hasSuf inputTyp.name "Payload"
    let inputTypeName : String :=
      if stripped then trimSuf (trimPre inputTyp.name "Delete") "Payload" else inputTyp.name
    let resolved : Option TypeDef :=
      if stripped then sch.lookup inputTypeName else some inputTyp
    match resolved with
    | none => []
    | some t =>
      t.fields.map (fun fld =>
        let parentInt := parentInterface sch t fld.name
        let typName := if parentInt == "" then inputTypeName else parentInt
        (originalName ++ fld.name, typName ++ "." ++ fld.name))

/-- `DgraphMapping(sch)`: the predicate mapping, as the ordered list of
entries contributed by each type of the schema (the Go map iteration order
is arbitrary; every property proved is order-independent). -/
def dgraphMapping (sch : Schema) : List (String × String) :=
  sch.types.flatMap (mappingEntriesFor sch)

/-- First value bound to a key in an association list (Go map read). -/
def assocLookup (l : List (String × String)) (k : String) : Option String :=
  (l.find? (fun e => e.1 == k)).map (fun e => e.2)

/-! ## genDgSchema (schemagen.go lines 190-266) -/

/-- The constant `searchableDirective`.
Modelled from the spec: the name of the indexing directive; the spec's
worked example writes it as `@searchable` (the constant itself is declared
outside the given source files). -/
def searchableDirective : String := "searchable"

/-- The constant `searchableArg`.
Modelled from the spec: the name of the indexing directive's optional
explicit index-kind argument (the constant itself is declared outside the
given source files; no claim depends on its concrete value). -/
def searchableArg : String := "by"

/-- The two fixed tables `scalarToDgraph` and `defaultSearchables`.
Modelled from the spec: a fixed scalar-to-storage-type table and a fixed
per-scalar-type default index kind table; both are declared outside the
given source files, so they are passed as explicit parameters and every
theorem holds for an arbitrary choice of tables. -/
structure DgraphTables where
  scalarToDgraph : String → String
  defaultSearchables : String → String

/-- One line `  <typName>.<fieldName>: <typStr>\n` written to the `typeDef`
builder inside a type block. -/
structure TypeLine where
  typName : String
  fieldName : String
  typStr : String
deriving DecidableEq, Repr

/-- One standalone predicate declaration
`<typName>.<fieldName>: <typStr><indexStr> .\n` written to the `preds`
builder. -/
structure PredDecl where
  typName : String
  fieldName : String
  typStr : String
  indexStr : String
deriving DecidableEq, Repr

/-- `if f.Type.Elem != nil` then wrap the storage type in list brackets. -/
def listWrap (isList : Bool) (s : String) : String :=
  if isList then "[" ++ s ++ "]" else s

/-- The `indexStr` computed for a Scalar-kind field: empty without the
indexing directive, the explicit index-kind argument verbatim when present,
else the per-scalar-type default. -/
def scalarIndexStr (tbl : DgraphTables) (f : FieldDef) : String :=
  match directivesForName f.directives searchableDirective with
  | none => ""
  | some searchable =>
    match argumentsForName searchable.arguments searchableArg with
    | some arg => " @index(" ++ arg.valueRaw ++ ")"
    | none => " @index(" ++ tbl.defaultSearchables f.typeName ++ ")"

/-- The loop body of `genDgSchema` for one field of a definition: the type
block lines and standalone predicate declarations it emits.  `ID`-typed
fields are skipped; the switch on the field type's kind emits nothing for
kinds other than Object/Scalar/Enum (a field type missing from the schema
would be a nil dereference in Go and emits nothing here). -/
def processField (tbl : DgraphTables) (sch : Schema) (d : TypeDef) (f : FieldDef) :
    List TypeLine × List PredDecl :=
  if f.typeName == "ID" then ([], [])
  else
    let parentInt := parentInterface sch d f.name
    let typName := if parentInt == "" then d.name else parentInt
    match (sch.lookup f.typeName).map (fun td => td.kind) with
    | some TypeKind.object =>
      let typStr := listWrap f.isList "uid"
      ([⟨typName, f.name, typStr⟩],
       if parentInt == "" then [⟨typName, f.name, typStr, ""⟩] else [])
    | some TypeKind.scalar =>
      let typStr := listWrap f.isList (tbl.scalarToDgraph f.typeName)
      let indexStr := scalarIndexStr tbl f
      ([⟨typName, f.name, typStr⟩],
       if parentInt == "" then [⟨typName, f.name, typStr, indexStr⟩] else [])
    | some TypeKind.enum =>
      ([⟨typName, f.name, "string"⟩],
       if parentInt == "" then [⟨typName, f.name, "string", " @index(exact)"⟩] else [])
    | _ => ([], [])

/-- The type block lines a definition emits, in field order. -/
def defTypeLines (tbl : DgraphTables) (sch : Schema) (d : TypeDef) : List TypeLine :=
  d.fields.flatMap (fun f => (processField tbl sch d f).1)

/-- The standalone predicate declarations a definition emits, in field order. -/
def defPredDecls (tbl : DgraphTables) (sch : Schema) (d : TypeDef) : List PredDecl :=
  d.fields.flatMap (fun f => (processField tbl sch d f).2)

/-- The outer loop of `genDgSchema`: for each name of the original
definitions list, in order, process the definition when its kind is Object
or Interface (a name missing from the schema would be a nil dereference in
Go and is skipped here). -/
def genDgSchemaStruct (tbl : DgraphTables) (sch : Schema) (definitions : List String) :
    List (String × List TypeLine × List PredDecl) :=
  definitions.filterMap (fun key =>
    match sch.lookup key with
    | none => none
    | some d =>
      match d.kind with
      | TypeKind.object => some (d.name, defTypeLines tbl sch d, defPredDecls tbl sch d)
      | TypeKind.interface => some (d.name, defTypeLines tbl sch d, defPredDecls tbl sch d)
      | _ => none)

/-- All standalone predicate declarations of the whole generated schema, in
emission order. -/
def allPredDecls (tbl : DgraphTables) (sch : Schema) (definitions : List String) :
    List PredDecl :=
  (genDgSchemaStruct tbl sch definitions).flatMap (fun e => e.2.2)

/-- Whether a field type of this kind makes the switch of `genDgSchema`
emit anything (cases `ast.Object`, `ast.Scalar`, `ast.Enum`). -/
def kindEmits : Option TypeKind → Bool
  | some TypeKind.object => true
  | some TypeKind.scalar => true
  | some TypeKind.enum => true
  | _ => false

/-- The standalone predicate declarations contributed by one name of the
definitions list (empty when the name is missing or not Object/Interface). -/
def keyPredDecls (tbl : DgraphTables) (sch : Schema) (key : String) : List PredDecl :=
  match sch.lookup key with
  | none => []
  | some d =>
    match d.kind with
    | TypeKind.object => defPredDecls tbl sch d
    | TypeKind.interface => defPredDecls tbl sch d
    | _ => []

/-- Rendering of one type block line, as `fmt.Fprintf(&typeDef, "  %s.%s: %s\n", ...)`. -/
def renderTypeLine (t : TypeLine) : String :=
  "  " ++ t.typName ++ "." ++ t.fieldName ++ ": " ++ t.typStr ++ "\n"

/-- Rendering of one predicate declaration, as
`fmt.Fprintf(&preds, "%s.%s: %s%s .\n", ...)`. -/
def renderPredDecl (p : PredDecl) : String :=
  p.typName ++ "." ++ p.fieldName ++ ": " ++ p.typStr ++ p.indexStr ++ " .\n"

/-- Rendering of one element of `typeStrings`: the type block followed by
its predicate declarations. -/
def renderDefBlock (e : String × List TypeLine × List PredDecl) : String :=
  "type " ++ e.1 ++ " \x7b\n" ++ String.join (e.2.1.map renderTypeLine) ++ "\x7d\n" ++
    String.join (e.2.2.map renderPredDecl)

/-- `genDgSchema(gqlSch, definitions)`: the generated Dgraph schema text,
`strings.Join(typeStrings, "")`. -/
def genDgSchema (tbl : DgraphTables) (sch : Schema) (definitions : List String) : String :=
  String.join ((genDgSchemaStruct tbl sch definitions).map renderDefBlock)

/-! ## Byte-wise string order (Go `sort.Strings`) -/

/-- Lexicographic order on character sequences by code point (equal to Go's
byte-wise string order, since UTF-8 byte order agrees with code point
order). -/
def strLeList : List Char → List Char → Bool
  | [], _ => true
  | _ :: _, [] => false
  | a :: as, b :: bs => a.toNat < b.toNat || (a.toNat == b.toNat && strLeList as bs)

/-- Go's string order `a <= b`. -/
def strLe (a b : String) : Bool := strLeList a.data b.data

/-- `strLe` as a relation, for `List.Sorted`. -/
def strRel (a b : String) : Prop := strLe a b = true

instance : DecidableRel strRel := fun a b => by unfold strRel; infer_instance

theorem strLeList_total (a b : List Char) : strLeList a b = true ∨ strLeList b a = true := by
  induction a generalizing b with
  | nil => left; rfl
  | cons x xs ih =>
    cases b with
    | nil => right; rfl
    | cons y ys =>
      simp only [strLeList, Bool.or_eq_true, Bool.and_eq_true, decide_eq_true_eq, beq_iff_eq]
      rcases Nat.lt_trichotomy x.toNat y.toNat with h | h | h
      · left; left; exact h
      · rcases ih ys with h2 | h2
        · left; right; exact ⟨h, h2⟩
        · right; right; exact ⟨h.symm, h2⟩
      · right; left; exact h

theorem strLeList_trans (a b c : List Char) (h1 : strLeList a b = true)
    (h2 : strLeList b c = true) : strLeList a c = true := by
  induction a generalizing b c with
  | nil => rfl
  | cons x xs ih =>
    cases b with
    | nil => simp [strLeList] at h1
    | cons y ys =>
      cases c with
      | nil => simp [strLeList] at h2
      | cons z zs =>
        simp only [strLeList, Bool.or_eq_true, Bool.and_eq_true, decide_eq_true_eq,
          beq_iff_eq] at h1 h2 ⊢
        rcases h1 with h1 | ⟨e1, r1⟩
        · rcases h2 with h2 | ⟨e2, r2⟩
          · left; omega
          · left; omega
        · rcases h2 with h2 | ⟨e2, r2⟩
          · left; omega
          · right; exact ⟨by omega, ih ys zs r1 r2⟩

instance : IsTotal String strRel := ⟨fun a b => strLeList_total a.data b.data⟩

instance : IsTrans String strRel :=
  ⟨fun a b c h1 h2 => strLeList_trans a.data b.data c.data h1 h2⟩

/-- `sort.Strings`: sort a string slice ascending in Go's byte-wise order
(strings have no distinct equal elements, so any correct sort produces this
sequence). -/
def sortStrings (l : List String) : List String := List.insertionSort strRel l

/-! ## Transaction gateway data model (part_000) -/

/-- `api.TxnContext`: start/commit timestamps, aborted flag, conflict keys,
affected predicates. -/
structure TxnContext where
  startTs : Nat
  commitTs : Nat
  aborted : Bool
  keys : List String
  preds : List String
deriving DecidableEq, Repr

/-- Errors returned by the external `worker.CommitOverNetwork` call, as the
gateway distinguishes them: the sentinel `dgo.ErrAborted`, or any other
error carrying a message (`none` at the call site is Go's `nil` error). -/
inductive GoErr where
  | errAborted
  | errMsg (msg : String)
deriving DecidableEq, Repr

/-- `x.Success`.
Modelled from the spec: the success code of a success envelope (the constant
is declared outside the given source files; the spec writes it `Success`). -/
def xSuccess : String := "Success"

/-- The success envelope built by `handleAbort`:
`{"code": x.Success, "message": "Done"}`. -/
def abortSuccessEnvelope : List (String × String) :=
  [("code", xSuccess), ("message", "Done")]

/-- The transaction context `handleAbort` builds:
`&api.TxnContext{StartTs: startTs, Aborted: true}` (the other fields stay
at their zero values). -/
def abortTxnContext (startTs : Nat) : TxnContext :=
  { startTs := startTs, commitTs := 0, aborted := true, keys := [], preds := [] }

/-- `handleAbort(startTs)` (part_000 lines 467-485), with the external
`worker.CommitOverNetwork` passed as a function from the transaction context
to its result (assigned commit timestamp, error): builds an aborted context
for `startTs`, calls the engine, and maps the outcome: `dgo.ErrAborted`
means success, a `nil` error means the transaction could not be aborted, any
other error is returned unchanged. -/
def handleAbort (commitOverNetwork : TxnContext → Nat × Option GoErr) (startTs : Nat) :
    Except GoErr (List (String × String)) :=
  let tc : TxnContext := abortTxnContext startTs
  match (commitOverNetwork tc).2 with
  | some GoErr.errAborted => Except.ok abortSuccessEnvelope
  | none => Except.error (GoErr.errMsg "transaction could not be aborted")
  | some e => Except.error e

/-! ## Query handler flag derivation (part_000 lines 219-246) -/

/-- `api.Request` as the query handler builds it: query text, variables,
transaction coordinates and modifiers. -/
structure ApiRequest where
  query : String
  vars : List (String × String)
  startTs : Nat
  bestEffort : Bool
  readOnly : Bool
  commitNow : Bool
deriving DecidableEq, Repr

/-- The request the query handler first builds: only `Vars`, `Query` and
`StartTs` are set; every flag is Go's zero value `false`. -/
def mkQueryRequest (q : String) (vars : List (String × String)) (startTs : Nat) : ApiRequest :=
  { query := q, vars := vars, startTs := startTs,
    bestEffort := false, readOnly := false, commitNow := false }

/-- The `req.StartTs == 0` block of the query handler: an explicit
best-effort flag sets both `BestEffort` and `ReadOnly`; an explicit
read-only flag sets `ReadOnly`. -/
def applyBeRo (req : ApiRequest) (isBestEffort isReadOnly : Bool) : ApiRequest :=
  if req.startTs == 0 then
    let req := if isBestEffort then { req with bestEffort := true, readOnly := true } else req
    if isReadOnly then { req with readOnly := true } else req
  else req

/-! ## Mutation response assembly (part_000 lines 371-408) -/

/-- Lines 372-382 of the mutation handler: the transaction context placed in
the response extensions has its keys and predicates sorted, and its keys
cleared when the request carried `commitNow`. -/
def mutationExtensionsTxn (commitNow : Bool) (txn : TxnContext) : TxnContext :=
  let txn := { txn with keys := sortStrings txn.keys, preds := sortStrings txn.preds }
  if commitNow then { txn with keys := [] } else txn

/-- The serialized `{code, message, uids}` object without its leading brace
(everything after `data[0]`). -/
def mpObjectTail (uidsJson : String) : String :=
  "\"code\":\"" ++ xSuccess ++ "\",\"message\":\"Done\",\"uids\":" ++ uidsJson ++ "\x7d"

/-- The serialized `{code, message, uids}` object `json.Marshal(mp)` (Go
serializes map keys in sorted order), with the engine's `resp.Uids` already
serialized as `uidsJson`. -/
def mpObjectJson (uidsJson : String) : String :=
  "\x7b" ++ mpObjectTail uidsJson

/-- Lines 391-408 of the mutation handler: the `data` field of the response.
`respJson` is the engine's raw result payload `resp.Json` (a byte string;
`l` is its byte length and the last-byte test is against `'}'`); `mpJson`
is the serialized `{code, message, uids}` object. -/
def mutationDataField (respJson mpJson : String) : String :=
  let l := respJson.utf8ByteSize
  if l > 2 && hasSuf respJson "\x7d" then
    strDropRight respJson 1 ++ "," ++ strDrop mpJson 1
  else mpJson

/-! ## readRequest (part_000 lines 71-96) -/

/-- What `readRequest` does to the body, as decided by the
`Content-Encoding` header (`none` models an absent header: Go's
`Header.Get` returns `""` for it, so absent and empty coincide).  The
external gzip reader is the `gunzip` parameter; `Except.error` carries the
status message set before the body is ever read. -/
def readRequest (gunzip : List Nat → Except String (List Nat)) (contentEncoding : Option String)
    (body : List Nat) : Except String (List Nat) :=
  let enc := contentEncoding.getD ""
  if enc != "" && enc != "identity" then
    if enc == "gzip" then gunzip body
    else Except.error "Unsupported content encoding"
  else Except.ok body

/-! ## convertJSONError and jsonLineAndChar (part_000 lines 601-649) -/

/-- The scan loop of `jsonLineAndChar`: `i` is the byte index of the rune
being processed (Go's `for i, b := range input`), `line`/`character` the
running counters; the loop stops after processing the rune whose byte index
equals `offset`, or at the end of the input. -/
def jsonScan (offset : Int) : List Char → Nat → Nat → Int → Nat × Nat
  | [], line, character, _ => (line, character)
  | c :: cs, line, character, i =>
    let lineChar := if c = Char.ofNat 0x0A then (line + 1, 0) else (line, character)
    let character := lineChar.2 + 1
    let line := lineChar.1
    if i == offset then (line, character)
    else jsonScan offset cs line character (i + c.utf8Size)

/-- `jsonLineAndChar(input, offset)`: 1-based line and character position of
the byte offset in the input, or an error when the offset is out of range. -/
def jsonLineAndChar (input : String) (offset : Int) : Except String (Nat × Nat) :=
  if offset > (input.utf8ByteSize : Int) || offset < 0 then
    Except.error ("Couldn't find offset " ++ toString offset ++ " within the input.")
  else
    Except.ok (jsonScan offset input.data 1 0 0)

/-- The JSON decode errors `convertJSONError` recognizes: Go's
`*json.SyntaxError` and `*json.UnmarshalTypeError`, both carrying a byte
offset, and any other error (`none` models a `nil` error). -/
inductive JSONErr where
  | syntaxError (msg : String) (offset : Int)
  | typeError (msg : String) (offset : Int)
  | otherError (msg : String)
deriving DecidableEq, Repr

/-- The message text of a Go error value, as `err.Error()`. -/
def JSONErr.message : JSONErr → String
  | JSONErr.syntaxError m _ => m
  | JSONErr.typeError m _ => m
  | JSONErr.otherError m => m

/-- `convertJSONError(input, err)`: enrich a JSON decode error that carries
a byte offset with the 1-based line and character position of that offset;
any other error (or an offset `jsonLineAndChar` rejects) passes through
unchanged. -/
def convertJSONError (input : String) (err : Option JSONErr) : Option String :=
  match err with
  | none => none
  | some e =>
    match e with
    | JSONErr.syntaxError msg offset =>
      match jsonLineAndChar input offset with
      | Except.error _ => some msg
      | Except.ok lc =>
        some ("Error parsing JSON at line " ++ toString lc.1 ++ ", character " ++
          toString lc.2 ++ ": " ++ msg ++ "\n")
    | JSONErr.typeError msg offset =>
      match jsonLineAndChar input offset with
      | Except.error _ => some msg
      | Except.ok lc =>
        some ("Error parsing JSON at line " ++ toString lc.1 ++ ", character " ++
          toString lc.2 ++ ": " ++ msg ++ "\n")
    | JSONErr.otherError msg => some msg

/-! ## Commit endpoint dispatch (part_000 lines 419-465) -/

/-- The outcome of the commit endpoint after parameter parsing: a missing
start timestamp is rejected; `abort=true` runs `handleAbort`; otherwise the
request body is read and the commit path runs. -/
inductive CommitDispatch where
  | missingStartTs
  | abortPath (result : Except GoErr (List (String × String)))
  | commitPath
deriving Repr

/-- The dispatch of `commitHandler` on its parsed query-string parameters:
`startTs == 0` short-circuits with the mandatory-parameter error, else
`abort` selects `handleAbort`. -/
def commitHandlerDispatch (commitOverNetwork : TxnContext → Nat × Option GoErr)
    (startTs : Nat) (abort : Bool) : CommitDispatch :=
  if startTs == 0 then CommitDispatch.missingStartTs
  else if abort then CommitDispatch.abortPath (handleAbort commitOverNetwork startTs)
  else CommitDispatch.commitPath

/-! ## Concrete example schemas (used by counterexamples and witnesses) -/

/-- A scalar field `f: String` with no directives. -/
def exFieldF : FieldDef :=
  { name := "f", typeName := "String", isList := false, directives := [] }

/-- `type X { f: String }`. -/
def exTypeX : TypeDef :=
  { name := "X", kind := TypeKind.object, fields := [exFieldF], interfaces := [], builtIn := false }

/-- `type XPayload { f: String }`: a type following the `<X>Payload` naming
convention without the `Delete` prefix. -/
def exTypeXPayload : TypeDef :=
  { name := "XPayload", kind := TypeKind.object, fields := [exFieldF], interfaces := [],
    builtIn := false }

/-- `type DeleteXPayload { f: String }`: a generated delete-payload wrapper. -/
def exTypeDeleteXPayload : TypeDef :=
  { name := "DeleteXPayload", kind := TypeKind.object, fields := [exFieldF], interfaces := [],
    builtIn := false }

/-- Schema with `X`, `XPayload` and `DeleteXPayload`. -/
def exSchemaC2 : Schema :=
  { types := [exTypeX, exTypeXPayload, exTypeDeleteXPayload] }

/-- The built-in scalar `String`. -/
def exScalarString : TypeDef :=
  { name := "String", kind := TypeKind.scalar, fields := [], interfaces := [], builtIn := true }

/-- The built-in scalar `Int`. -/
def exScalarInt : TypeDef :=
  { name := "Int", kind := TypeKind.scalar, fields := [], interfaces := [], builtIn := true }

/-- `interface A { name: String }`. -/
def exIfaceA : TypeDef :=
  { name := "A", kind := TypeKind.interface,
    fields := [{ name := "name", typeName := "String", isList := false, directives := [] }],
    interfaces := [], builtIn := false }

/-- `type B implements A { name: String, age: Int }`. -/
def exTypeB : TypeDef :=
  { name := "B", kind := TypeKind.object,
    fields := [{ name := "name", typeName := "String", isList := false, directives := [] },
               { name := "age", typeName := "Int", isList := false, directives := [] }],
    interfaces := ["A"], builtIn := false }

/-- Schema with the interface `A`, its implementer `B`, and the scalars. -/
def exSchemaC3 : Schema :=
  { types := [exIfaceA, exTypeB, exScalarString, exScalarInt] }

/-- A concrete choice of the two external tables. -/
def exTables : DgraphTables :=
  { scalarToDgraph := fun s => if s == "Int" then "int" else "string",
    defaultSearchables := fun s => if s == "Int" then "int" else "hash" }

/-- `type T { g: Int @searchable }`: a scalar field carrying the indexing
directive with no explicit argument (the spec's worked example). -/
def exFieldG : FieldDef :=
  { name := "g", typeName := "Int", isList := false,
    directives := [{ name := searchableDirective, arguments := [] }] }

/-- The type `T` of the spec's worked example. -/
def exTypeT : TypeDef :=
  { name := "T", kind := TypeKind.object, fields := [exFieldG], interfaces := [],
    builtIn := false }

/-- Schema with just `T` and the scalars. -/
def exSchemaC4 : Schema :=
  { types := [exTypeT, exScalarString, exScalarInt] }

/-! ## Theorems -/

theorem scanInterfaces_eq_find (sch : Schema) (fieldName : String) (l : List String) :
    scanInterfaces sch fieldName l =
      (l.find? (fun i => (((sch.lookup i).getD emptyTypeDef).fields).any
        (fun f => fieldName == f.name))).getD "" := by
  induction l with
  | nil => rfl
  | cons x xs ih =>
    simp only [scanInterfaces, List.find?_cons]
    cases hx : (((sch.lookup x).getD emptyTypeDef).fields).any (fun f => fieldName == f.name) with
    | true => simp
    | false => simpa using ih

/-- C5: `parentInterface` scans the type's implemented interfaces in
declaration order and returns the name of the first interface whose field
list contains the field name; if no implemented interface declares the
field (including when the type implements no interfaces), it returns the
empty string — i.e. it agrees with the spec's `resolveNamespace`. -/
theorem C5_parentInterface_is_first_declaring_interface (sch : Schema) (typDef : TypeDef)
    (fieldName : String) :
    parentInterface sch typDef fieldName = resolveNamespaceSpec sch typDef fieldName := by
  unfold parentInterface resolveNamespaceSpec
  by_cases h : typDef.interfaces.isEmpty
  · rw [if_pos h]
    rw [List.isEmpty_iff] at h
    rw [h]
    rfl
  · rw [if_neg h, scanInterfaces_eq_find]

/-- C1: on the commit endpoint with `abort=true` and a non-zero start
timestamp, the gateway calls the external commit with an aborted context for
that timestamp and maps the outcome: the designated already-aborted error
yields a success envelope (code `Success`, message `Done`) with no error; a
`nil` error yields the could-not-be-aborted error; any other error is
returned unchanged. -/
theorem C1_abort_error_mapping (con : TxnContext → Nat × Option GoErr)
    (startTs : Nat) (abort : Bool) (hts : startTs ≠ 0) (hab : abort = true) :
    commitHandlerDispatch con startTs abort =
      CommitDispatch.abortPath (handleAbort con startTs) ∧
    ((con (abortTxnContext startTs)).2 = some GoErr.errAborted →
      handleAbort con startTs = Except.ok [("code", xSuccess), ("message", "Done")]) ∧
    ((con (abortTxnContext startTs)).2 = none →
      handleAbort con startTs =
        Except.error (GoErr.errMsg "transaction could not be aborted")) ∧
    (∀ msg, (con (abortTxnContext startTs)).2 = some (GoErr.errMsg msg) →
      handleAbort con startTs = Except.error (GoErr.errMsg msg)) := by
  subst hab
  refine ⟨?_, ?_, ?_, ?_⟩
  · simp [commitHandlerDispatch, beq_iff_eq, hts]
  · intro h
    simp [handleAbort, abortSuccessEnvelope, h]
  · intro h
    simp [handleAbort, h]
  · intro msg h
    simp [handleAbort, h]

theorem C1_abort_error_mapping_witness :
    handleAbort (fun _tc => (0, some GoErr.errAborted)) 7 =
      Except.ok [("code", xSuccess), ("message", "Done")] :=
  (C1_abort_error_mapping (fun _tc => (0, some GoErr.errAborted)) 7 true
    (by decide) rfl).2.1 rfl

/-- C8: for a query request with start timestamp zero, `be=true` sets both
the best-effort and read-only flags on the outgoing request, `ro=true` sets
the read-only flag, and the read-only flag is honored independently of the
best-effort flag (it ends up set exactly when `be` or `ro` was set). -/
theorem C8_best_effort_readonly_flags (q : String) (vars : List (String × String))
    (startTs : Nat) (be ro : Bool) (hts : startTs = 0) :
    (be = true → (applyBeRo (mkQueryRequest q vars startTs) be ro).bestEffort = true ∧
      (applyBeRo (mkQueryRequest q vars startTs) be ro).readOnly = true) ∧
    (ro = true → (applyBeRo (mkQueryRequest q vars startTs) be ro).readOnly = true) ∧
    (applyBeRo (mkQueryRequest q vars startTs) be ro).readOnly = (be || ro) ∧
    (applyBeRo (mkQueryRequest q vars startTs) be ro).bestEffort = be := by
  subst hts
  cases be <;> cases ro <;> simp [applyBeRo, mkQueryRequest]

theorem C8_best_effort_readonly_flags_witness :
    (applyBeRo (mkQueryRequest "" [] 0) true false).bestEffort = true ∧
    (applyBeRo (mkQueryRequest "" [] 0) true false).readOnly = true :=
  (C8_best_effort_readonly_flags "" [] 0 true false rfl).1 rfl

/-- C10: a request with `Content-Encoding` equal to `identity`, absent, or
empty is read without decompression; only the value `gzip` triggers
decompression; any other non-empty value is rejected as an unsupported
content encoding without the body being read (the outcome is the same error
whatever the body holds). -/
theorem C10_content_encoding (gunzip : List Nat → Except String (List Nat))
    (enc : String) (body body2 : List Nat)
    (h1 : enc ≠ "") (h2 : enc ≠ "identity") (h3 : enc ≠ "gzip") :
    readRequest gunzip none body = Except.ok body ∧
    readRequest gunzip (some "") body = Except.ok body ∧
    readRequest gunzip (some "identity") body = Except.ok body ∧
    readRequest gunzip (some "gzip") body = gunzip body ∧
    readRequest gunzip (some enc) body = Except.error "Unsupported content encoding" ∧
    readRequest gunzip (some enc) body = readRequest gunzip (some enc) body2 := by
  refine ⟨rfl, rfl, rfl, rfl, ?_, ?_⟩ <;>
    simp [readRequest, bne_iff_ne, h1, h2, beq_eq_false_iff_ne.mpr h3]

theorem C10_content_encoding_witness :
    readRequest (fun b => Except.ok b) (some "deflate") [1, 2] =
      Except.error "Unsupported content encoding" :=
  (C10_content_encoding (fun b => Except.ok b) "deflate" [1, 2] []
    (by decide) (by decide) (by decide)).2.2.2.2.1

theorem string_mk_data (s : String) : String.mk s.data = s := by
  cases s with
  | mk d => rfl

theorem sortStrings_sorted (l : List String) : List.Sorted strRel (sortStrings l) :=
  List.sorted_insertionSort strRel l

/-- C6: the transaction context placed in a mutation response has its
conflict keys and affected predicates sorted in Go's string order, and when
the request carried `commitNow=true` its conflict-key list is empty whatever
the engine returned. -/
theorem C6_mutation_sorted_and_commitNow_clears_keys (commitNow : Bool) (txn : TxnContext) :
    List.Sorted strRel (mutationExtensionsTxn commitNow txn).keys ∧
    List.Sorted strRel (mutationExtensionsTxn commitNow txn).preds ∧
    (commitNow = true → (mutationExtensionsTxn commitNow txn).keys = []) := by
  cases commitNow with
  | true =>
    refine ⟨?_, ?_, fun _ => rfl⟩
    · simp [mutationExtensionsTxn]
    · simpa [mutationExtensionsTxn] using sortStrings_sorted txn.preds
  | false =>
    refine ⟨?_, ?_, fun h => by simp at h⟩
    · simpa [mutationExtensionsTxn] using sortStrings_sorted txn.keys
    · simpa [mutationExtensionsTxn] using sortStrings_sorted txn.preds

theorem C6_mutation_sorted_and_commitNow_clears_keys_witness :
    List.Sorted strRel
      (mutationExtensionsTxn true ⟨5, 0, false, ["b", "a"], ["q", "p"]⟩).preds ∧
    (mutationExtensionsTxn true ⟨5, 0, false, ["b", "a"], ["q", "p"]⟩).keys = [] :=
  ⟨(C6_mutation_sorted_and_commitNow_clears_keys true ⟨5, 0, false, ["b", "a"], ["q", "p"]⟩).2.1,
   (C6_mutation_sorted_and_commitNow_clears_keys true
      ⟨5, 0, false, ["b", "a"], ["q", "p"]⟩).2.2 rfl⟩

theorem strDrop_one_mpObjectJson (u : String) :
    strDrop (mpObjectJson u) 1 = mpObjectTail u := by
  unfold mpObjectJson strDrop
  rw [String.data_append]
  exact string_mk_data (mpObjectTail u)

/-- C7: in mutation response assembly, when the engine's raw result payload
is longer than the two-byte empty object and ends with a closing brace, the
`data` field is the raw payload with its trailing brace dropped, a comma,
and the serialized `{code, message, uids}` object with its leading brace
dropped; otherwise the `data` field is just the `{code, message, uids}`
object. -/
theorem C7_mutation_data_field (respJson uidsJson : String)
    (h : respJson.utf8ByteSize > 2 ∧ hasSuf respJson "\x7d" = true) :
    mutationDataField respJson (mpObjectJson uidsJson) =
      strDropRight respJson 1 ++ "," ++ mpObjectTail uidsJson ∧
    (∀ other : String, ¬ (other.utf8ByteSize > 2 ∧ hasSuf other "\x7d" = true) →
      mutationDataField other (mpObjectJson uidsJson) = mpObjectJson uidsJson) := by
  constructor
  · unfold mutationDataField
    rw [if_pos (by simp only [Bool.and_eq_true, decide_eq_true_eq]; exact h),
      strDrop_one_mpObjectJson]
  · intro other hother
    unfold mutationDataField
    rw [if_neg (by simp only [Bool.and_eq_true, decide_eq_true_eq]; exact hother)]

theorem C7_mutation_data_field_witness :
    mutationDataField "\x7b\"q\":[]\x7d" (mpObjectJson "\x7b\x7d") =
      strDropRight "\x7b\"q\":[]\x7d" 1 ++ "," ++ mpObjectTail "\x7b\x7d" :=
  (C7_mutation_data_field "\x7b\"q\":[]\x7d" "\x7b\x7d" ⟨by decide, by decide⟩).1

theorem jsonScan_line_stays_one (offset : Int) (cs : List Char) (character : Nat) (i : Int)
    (h : ∀ c ∈ cs, c ≠ Char.ofNat 0x0A) :
    (jsonScan offset cs 1 character i).1 = 1 := by
  induction cs generalizing character i with
  | nil => rfl
  | cons c cs ih =>
    have hc : c ≠ Char.ofNat 0x0A := h c (List.mem_cons_self c cs)
    simp only [jsonScan, if_neg hc]
    by_cases hi : (i == offset) = true
    · simp [hi]
    · simp only [Bool.not_eq_true] at hi
      simp only [hi, Bool.false_eq_true, if_false]
      exact ih _ _ (fun c2 hc2 => h c2 (List.mem_cons_of_mem _ hc2))

/-- C9: for a malformed JSON body whose decode error carries a byte offset
within the input, the enriched message cites a 1-based line number computed
by scanning the input up to that offset (so any single-line input yields
line 1), and the body `{"query": }` with the error at byte offset 11 yields
line 1, character 11. -/
theorem C9_json_error_position (msg input : String) (offset : Int)
    (h0 : 0 ≤ offset) (h1 : offset ≤ (input.utf8ByteSize : Int))
    (h2 : ∀ c ∈ input.data, c ≠ Char.ofNat 0x0A) :
    (∃ ch, jsonLineAndChar input offset = Except.ok (1, ch)) ∧
    jsonLineAndChar "\x7b\"query\": \x7d" 11 = Except.ok (1, 11) ∧
    convertJSONError "\x7b\"query\": \x7d" (some (JSONErr.syntaxError msg 11)) =
      some ("Error parsing JSON at line 1, character 11: " ++ msg ++ "\n") := by
  have hex : jsonLineAndChar "\x7b\"query\": \x7d" 11 = Except.ok (1, 11) := rfl
  refine ⟨?_, hex, ?_⟩
  · unfold jsonLineAndChar
    rw [if_neg (by simp only [Bool.or_eq_true, decide_eq_true_eq]; omega)]
    refine ⟨(jsonScan offset input.data 1 0 0).2, ?_⟩
    have hf := jsonScan_line_stays_one offset input.data 0 0 h2
    have hpair : jsonScan offset input.data 1 0 0 =
        (1, (jsonScan offset input.data 1 0 0).2) := Prod.ext hf rfl
    rw [hpair]
  · simp only [convertJSONError, hex]
    have hlit : "Error parsing JSON at line " ++ toString (1 : Nat) ++ ", character " ++
        toString (11 : Nat) ++ ": " = "Error parsing JSON at line 1, character 11: " := by
      decide
    rw [hlit]

theorem C9_json_error_position_witness :
    ∃ ch, jsonLineAndChar "\x7b\"query\": \x7d" 11 = Except.ok (1, ch) :=
  (C9_json_error_position "invalid character" "\x7b\"query\": \x7d" 11
    (by decide) (by decide) (by decide)).1

/-- C2 (counterexample): `XPayload` follows the `<X>Payload` naming
convention and `X` is present in the schema, yet its mapping value is
`XPayload.f`, not the `X.f` that `X`'s own field maps to — the code only
resolves back names carrying both the `Delete` prefix and the `Payload`
suffix. -/
theorem C2_payload_without_delete_not_resolved :
    hasSuf exTypeXPayload.name "Payload" = true ∧
    exSchemaC2.lookup "X" = some exTypeX ∧
    assocLookup (dgraphMapping exSchemaC2) ("XPayload" ++ "f") = some "XPayload.f" ∧
    assocLookup (dgraphMapping exSchemaC2) ("X" ++ "f") = some "X.f" ∧
    assocLookup (dgraphMapping exSchemaC2) ("XPayload" ++ "f") ≠
      assocLookup (dgraphMapping exSchemaC2) ("X" ++ "f") := by
  decide

/-- C2 (amended): exactly the types whose name carries both the `Delete`
prefix and the `Payload` suffix are resolved back to the original type `X`
(the name with that prefix and suffix stripped) before resolving each
field's namespace: the mapping keys use the wrapper type name plus the field
name, while the mapped predicate identifiers equal the ones `X`'s own fields
map to. -/
theorem C2_delete_payload_mapping (sch : Schema) (w xdef : TypeDef)
    (hwb : w.builtIn = false) (hwq : w.name ≠ "query") (hwm : w.name ≠ "mutation")
    (hwk : w.kind = TypeKind.object)
    (hp : hasPre w.name "Delete" = true) (hs : hasSuf w.name "Payload" = true)
    (hx : sch.lookup (trimSuf (trimPre w.name "Delete") "Payload") = some xdef)
    (hxb : xdef.builtIn = false) (hxq : xdef.name ≠ "query") (hxm : xdef.name ≠ "mutation")
    (hxk : xdef.kind = TypeKind.object)
    (hxp : hasPre xdef.name "Delete" = false) :
    (mappingEntriesFor sch w).map Prod.fst =
      xdef.fields.map (fun fld => w.name ++ fld.name) ∧
    (mappingEntriesFor sch w).map Prod.snd = (mappingEntriesFor sch xdef).map Prod.snd := by
  have hname : xdef.name = trimSuf (trimPre w.name "Delete") "Payload" := by
    have hfind := List.find?_some hx
    exact eq_of_beq hfind
  have hw : (w.builtIn || w.name == "query" || w.name == "mutation" ||
      (w.kind != TypeKind.object && w.kind != TypeKind.interface)) = false := by
    simp [hwb, hwq, hwm, hwk]
  have hxguard : (xdef.builtIn || xdef.name == "query" || xdef.name == "mutation" ||
      (xdef.kind != TypeKind.object && xdef.kind != TypeKind.interface)) = false := by
    simp [hxb, hxq, hxm, hxk]
  have hwentries : mappingEntriesFor sch w = xdef.fields.map (fun fld =>
      (w.name ++ fld.name,
        (if parentInterface sch xdef fld.name == ""
          then trimSuf (trimPre w.name "Delete") "Payload"
          else parentInterface sch xdef fld.name) ++ "." ++ fld.name)) := by
    simp only [mappingEntriesFor, hw, Bool.false_eq_true, if_false, hp, hs,
      Bool.and_self, if_true, hx]
  have hxentries : mappingEntriesFor sch xdef = xdef.fields.map (fun fld =>
      (xdef.name ++ fld.name,
        (if parentInterface sch xdef fld.name == ""
          then xdef.name
          else parentInterface sch xdef fld.name) ++ "." ++ fld.name)) := by
    simp only [mappingEntriesFor, hxguard, Bool.false_eq_true, if_false, hxp,
      Bool.false_and, if_false]
  constructor
  · rw [hwentries, List.map_map]
    rfl
  · rw [hwentries, hxentries, List.map_map, List.map_map, ← hname]
    rfl

theorem C2_delete_payload_mapping_witness :
    (mappingEntriesFor exSchemaC2 exTypeDeleteXPayload).map Prod.fst =
      exTypeX.fields.map (fun fld => exTypeDeleteXPayload.name ++ fld.name) ∧
    (mappingEntriesFor exSchemaC2 exTypeDeleteXPayload).map Prod.snd =
      (mappingEntriesFor exSchemaC2 exTypeX).map Prod.snd :=
  C2_delete_payload_mapping exSchemaC2 exTypeDeleteXPayload exTypeX
    rfl (by decide) (by decide) rfl (by decide) (by decide) (by decide)
    rfl (by decide) (by decide) rfl (by decide)

/-- C4: the index specification of an emitted predicate declaration is
determined by the field's kind: Object-kind fields get none; a Scalar-kind
field with the indexing directive and an explicit index-kind argument uses
the argument verbatim, with the directive but no argument uses the
per-scalar-type default, and without the directive gets none; Enum-kind
fields always get the exact-match index and storage type `string`. -/
theorem C4_index_specification (tbl : DgraphTables) (sch : Schema) (d : TypeDef) (f : FieldDef)
    (hID : (f.typeName == "ID") = false)
    (hpar : parentInterface sch d f.name = "") :
    ((sch.lookup f.typeName).map (fun td => td.kind) = some TypeKind.object →
      (processField tbl sch d f).2 = [⟨d.name, f.name, listWrap f.isList "uid", ""⟩]) ∧
    ((sch.lookup f.typeName).map (fun td => td.kind) = some TypeKind.scalar →
      directivesForName f.directives searchableDirective = none →
      (processField tbl sch d f).2 =
        [⟨d.name, f.name, listWrap f.isList (tbl.scalarToDgraph f.typeName), ""⟩]) ∧
    (∀ dir, (sch.lookup f.typeName).map (fun td => td.kind) = some TypeKind.scalar →
      directivesForName f.directives searchableDirective = some dir →
      argumentsForName dir.arguments searchableArg = none →
      (processField tbl sch d f).2 =
        [⟨d.name, f.name, listWrap f.isList (tbl.scalarToDgraph f.typeName),
          " @index(" ++ tbl.defaultSearchables f.typeName ++ ")"⟩]) ∧
    (∀ dir arg, (sch.lookup f.typeName).map (fun td => td.kind) = some TypeKind.scalar →
      directivesForName f.directives searchableDirective = some dir →
      argumentsForName dir.arguments searchableArg = some arg →
      (processField tbl sch d f).2 =
        [⟨d.name, f.name, listWrap f.isList (tbl.scalarToDgraph f.typeName),
          " @index(" ++ arg.valueRaw ++ ")"⟩]) ∧
    ((sch.lookup f.typeName).map (fun td => td.kind) = some TypeKind.enum →
      (processField tbl sch d f).2 = [⟨d.name, f.name, "string", " @index(exact)"⟩]) := by
  refine ⟨?_, ?_, ?_, ?_, ?_⟩
  · intro hk
    simp [processField, hID, hpar, hk]
  · intro hk hdir
    simp [processField, scalarIndexStr, hID, hpar, hk, hdir]
  · intro dir hk hdir harg
    simp [processField, scalarIndexStr, hID, hpar, hk, hdir, harg]
  · intro dir arg hk hdir harg
    simp [processField, scalarIndexStr, hID, hpar, hk, hdir, harg]
  · intro hk
    simp [processField, hID, hpar, hk]

theorem C4_index_specification_witness :
    (processField exTables exSchemaC4 exTypeT exFieldG).2 =
      [⟨exTypeT.name, exFieldG.name,
        listWrap exFieldG.isList (exTables.scalarToDgraph exFieldG.typeName),
        " @index(" ++ exTables.defaultSearchables exFieldG.typeName ++ ")"⟩] :=
  (C4_index_specification exTables exSchemaC4 exTypeT exFieldG
    (by decide) (by decide)).2.2.1 ⟨searchableDirective, []⟩ (by decide) (by decide) (by decide)

theorem Schema.lookup_name (sch : Schema) (n : String) (d : TypeDef)
    (h : sch.lookup n = some d) : d.name = n := by
  unfold Schema.lookup at h
  have h2 := List.find?_some h
  simpa using h2

theorem processField_pred_mem (tbl : DgraphTables) (sch : Schema) (d : TypeDef) (f : FieldDef)
    (p : PredDecl) (hp : p ∈ (processField tbl sch d f).2) :
    p.typName = d.name ∧ p.fieldName = f.name ∧ parentInterface sch d f.name = "" := by
  by_cases hid : (f.typeName == "ID") = true
  · simp [processField, hid] at hp
  · rw [Bool.not_eq_true] at hid
    by_cases hpar : parentInterface sch d f.name = ""
    · rcases hk : (sch.lookup f.typeName).map (fun td => td.kind) with _ | k
      · simp [processField, hid, hk] at hp
      · cases k with
        | object =>
          simp [processField, hid, hk, hpar] at hp
          exact ⟨by rw [hp], by rw [hp], hpar⟩
        | scalar =>
          simp [processField, hid, hk, hpar] at hp
          exact ⟨by rw [hp], by rw [hp], hpar⟩
        | enum =>
          simp [processField, hid, hk, hpar] at hp
          exact ⟨by rw [hp], by rw [hp], hpar⟩
        | interface => simp [processField, hid, hk] at hp
        | union => simp [processField, hid, hk] at hp
        | inputObject => simp [processField, hid, hk] at hp
    · have hparb : (parentInterface sch d f.name == "") = false :=
        beq_eq_false_iff_ne.mpr hpar
      rcases hk : (sch.lookup f.typeName).map (fun td => td.kind) with _ | k
      · simp [processField, hid, hk] at hp
      · cases k <;> simp [processField, hid, hk, hparb] at hp

theorem processField_line_mem (tbl : DgraphTables) (sch : Schema) (d : TypeDef) (f : FieldDef)
    (tl : TypeLine) (htl : tl ∈ (processField tbl sch d f).1) :
    tl.fieldName = f.name ∧
    (parentInterface sch d f.name ≠ "" → tl.typName = parentInterface sch d f.name) := by
  by_cases hid : (f.typeName == "ID") = true
  · simp [processField, hid] at htl
  · rw [Bool.not_eq_true] at hid
    by_cases hpar : parentInterface sch d f.name = ""
    · rcases hk : (sch.lookup f.typeName).map (fun td => td.kind) with _ | k
      · simp [processField, hid, hk] at htl
      · cases k with
        | object => simp [processField, hid, hk, hpar] at htl
                    exact ⟨by rw [htl], fun h => absurd hpar h⟩
        | scalar => simp [processField, hid, hk, hpar] at htl
                    exact ⟨by rw [htl], fun h => absurd hpar h⟩
        | enum => simp [processField, hid, hk, hpar] at htl
                  exact ⟨by rw [htl], fun h => absurd hpar h⟩
        | interface => simp [processField, hid, hk] at htl
        | union => simp [processField, hid, hk] at htl
        | inputObject => simp [processField, hid, hk] at htl
    · have hparb : (parentInterface sch d f.name == "") = false :=
        beq_eq_false_iff_ne.mpr hpar
      rcases hk : (sch.lookup f.typeName).map (fun td => td.kind) with _ | k
      · simp [processField, hid, hk] at htl
      · cases k with
        | object => simp [processField, hid, hk, hparb] at htl
                    exact ⟨by rw [htl], fun _ => by rw [htl]⟩
        | scalar => simp [processField, hid, hk, hparb] at htl
                    exact ⟨by rw [htl], fun _ => by rw [htl]⟩
        | enum => simp [processField, hid, hk, hparb] at htl
                  exact ⟨by rw [htl], fun _ => by rw [htl]⟩
        | interface => simp [processField, hid, hk] at htl
        | union => simp [processField, hid, hk] at htl
        | inputObject => simp [processField, hid, hk] at htl

theorem defPredDecls_mem (tbl : DgraphTables) (sch : Schema) (d : TypeDef) (p : PredDecl)
    (hp : p ∈ defPredDecls tbl sch d) :
    p.typName = d.name ∧
    ∃ f ∈ d.fields, p.fieldName = f.name ∧ parentInterface sch d f.name = "" := by
  rw [defPredDecls, List.mem_flatMap] at hp
  obtain ⟨f, hf, hpf⟩ := hp
  obtain ⟨h1, h2, h3⟩ := processField_pred_mem tbl sch d f p hpf
  exact ⟨h1, f, hf, h2, h3⟩

theorem countP_processField_fieldName_ne (tbl : DgraphTables) (sch : Schema) (d : TypeDef)
    (f : FieldDef) (fname : String) (hne : f.name ≠ fname) :
    ((processField tbl sch d f).2).countP (fun p => p.fieldName == fname) = 0 := by
  rw [List.countP_eq_zero]
  intro p hp
  have h := (processField_pred_mem tbl sch d f p hp).2.1
  simp [h, hne]

theorem countP_processField_fieldName_eq (tbl : DgraphTables) (sch : Schema) (d : TypeDef)
    (f : FieldDef) (fname : String)
    (hf : f.name = fname) (hID : (f.typeName == "ID") = false)
    (hpar : parentInterface sch d f.name = "")
    (hkind : kindEmits ((sch.lookup f.typeName).map (fun td => td.kind)) = true) :
    ((processField tbl sch d f).2).countP (fun p => p.fieldName == fname) = 1 := by
  subst hf
  rcases hk : (sch.lookup f.typeName).map (fun td => td.kind) with _ | k
  · rw [hk] at hkind
    simp [kindEmits] at hkind
  · cases k with
    | object => simp [processField, hID, hk, hpar, List.countP_cons]
    | scalar => simp [processField, hID, hk, hpar, List.countP_cons]
    | enum => simp [processField, hID, hk, hpar, List.countP_cons]
    | interface => rw [hk] at hkind; simp [kindEmits] at hkind
    | union => rw [hk] at hkind; simp [kindEmits] at hkind
    | inputObject => rw [hk] at hkind; simp [kindEmits] at hkind

theorem countP_fields_flatMap_one (tbl : DgraphTables) (sch : Schema) (d : TypeDef)
    (fname : String) (f0 : FieldDef)
    (hID : (f0.typeName == "ID") = false)
    (hpar : parentInterface sch d fname = "")
    (hkind : kindEmits ((sch.lookup f0.typeName).map (fun td => td.kind)) = true) :
    ∀ fs : List FieldDef, fs.filter (fun f => f.name == fname) = [f0] →
    (fs.flatMap (fun f => (processField tbl sch d f).2)).countP
      (fun p => p.fieldName == fname) = 1 := by
  intro fs
  induction fs with
  | nil => intro h; simp at h
  | cons f fs ih =>
    intro h
    rw [List.filter_cons] at h
    by_cases hf : (f.name == fname) = true
    · rw [if_pos hf] at h
      have hf0 : f = f0 := (List.cons_eq_cons.mp h).1
      have hrest : fs.filter (fun g => g.name == fname) = [] := (List.cons_eq_cons.mp h).2
      have hfn : f.name = fname := eq_of_beq hf
      rw [List.flatMap_cons, List.countP_append]
      have hone : ((processField tbl sch d f).2).countP (fun p => p.fieldName == fname) = 1 := by
        refine countP_processField_fieldName_eq tbl sch d f fname hfn ?_ ?_ ?_
        · rw [hf0]; exact hID
        · rw [hfn]; exact hpar
        · rw [hf0]; exact hkind
      have hzero : (fs.flatMap (fun g => (processField tbl sch d g).2)).countP
          (fun p => p.fieldName == fname) = 0 := by
        rw [List.countP_eq_zero]
        intro p hp
        rw [List.mem_flatMap] at hp
        obtain ⟨g, hg, hpg⟩ := hp
        have hgname := (processField_pred_mem tbl sch d g p hpg).2.1
        have hgne := List.filter_eq_nil_iff.mp hrest g hg
        simp only [beq_iff_eq] at hgne
        simp [hgname, hgne]
      rw [hone, hzero]
    · rw [if_neg hf] at h
      rw [List.flatMap_cons, List.countP_append,
        countP_processField_fieldName_ne tbl sch d f fname (by simpa using hf), ih h]

theorem countP_defPredDecls_one (tbl : DgraphTables) (sch : Schema) (dI : TypeDef)
    (fname : String) (f0 : FieldDef)
    (hifc : dI.interfaces = [])
    (hfields : dI.fields.filter (fun f => f.name == fname) = [f0])
    (hID : (f0.typeName == "ID") = false)
    (hkind : kindEmits ((sch.lookup f0.typeName).map (fun td => td.kind)) = true) :
    (defPredDecls tbl sch dI).countP (fun p => p.fieldName == fname) = 1 := by
  have hpar : parentInterface sch dI fname = "" := by
    unfold parentInterface
    rw [hifc]
    rfl
  exact countP_fields_flatMap_one tbl sch dI fname f0 hID hpar hkind dI.fields hfields

theorem allPredDecls_eq_flatMap (tbl : DgraphTables) (sch : Schema) (defs : List String) :
    allPredDecls tbl sch defs = defs.flatMap (keyPredDecls tbl sch) := by
  induction defs with
  | nil => rfl
  | cons key rest ih =>
    rw [List.flatMap_cons, ← ih]
    unfold allPredDecls genDgSchemaStruct keyPredDecls
    rw [List.filterMap_cons]
    rcases hk : sch.lookup key with _ | d
    · simp
    · cases hkind : d.kind <;> simp [hkind, List.flatMap_cons]

theorem countP_keyPredDecls_other (tbl : DgraphTables) (sch : Schema)
    (key iname fname : String) (hne : key ≠ iname) :
    (keyPredDecls tbl sch key).countP
      (fun p => p.typName == iname && p.fieldName == fname) = 0 := by
  unfold keyPredDecls
  rcases hk : sch.lookup key with _ | d
  · rfl
  · have hdname : d.name = key := Schema.lookup_name sch key d hk
    have hzero : (defPredDecls tbl sch d).countP
        (fun p => p.typName == iname && p.fieldName == fname) = 0 := by
      rw [List.countP_eq_zero]
      intro p hp
      have h1 := (defPredDecls_mem tbl sch d p hp).1
      simp [h1, hdname, hne]
    obtain ⟨dn, dk, dfs, difc, db⟩ := d
    cases dk <;> first | exact hzero | rfl

theorem countP_keyPredDecls_iface (tbl : DgraphTables) (sch : Schema) (dI : TypeDef)
    (fname : String) (f0 : FieldDef)
    (hlook : sch.lookup dI.name = some dI)
    (hkindI : dI.kind = TypeKind.interface)
    (hifc : dI.interfaces = [])
    (hfields : dI.fields.filter (fun f => f.name == fname) = [f0])
    (hID : (f0.typeName == "ID") = false)
    (hkind : kindEmits ((sch.lookup f0.typeName).map (fun td => td.kind)) = true) :
    (keyPredDecls tbl sch dI.name).countP
      (fun p => p.typName == dI.name && p.fieldName == fname) = 1 := by
  unfold keyPredDecls
  simp only [hlook, hkindI]
  have hcongr : (defPredDecls tbl sch dI).countP
      (fun p => p.typName == dI.name && p.fieldName == fname) =
    (defPredDecls tbl sch dI).countP (fun p => p.fieldName == fname) := by
    apply List.countP_congr
    intro p hp
    have h1 := (defPredDecls_mem tbl sch dI p hp).1
    simp [h1]
  rw [hcongr]
  exact countP_defPredDecls_one tbl sch dI fname f0 hifc hfields hID hkind

theorem countP_flatMap_keys_once (tbl : DgraphTables) (sch : Schema)
    (iname fname : String)
    (hone : (keyPredDecls tbl sch iname).countP
      (fun p => p.typName == iname && p.fieldName == fname) = 1) :
    ∀ defs : List String, defs.count iname = 1 →
    (defs.flatMap (keyPredDecls tbl sch)).countP
      (fun p => p.typName == iname && p.fieldName == fname) = 1 := by
  intro defs
  induction defs with
  | nil => intro h; simp at h
  | cons key rest ih =>
    intro h
    rw [List.count_cons] at h
    rw [List.flatMap_cons, List.countP_append]
    by_cases hkey : key = iname
    · subst hkey
      have hzero : rest.count key = 0 := by
        simp at h
        omega
      have hnm : key ∉ rest := List.count_eq_zero.mp hzero
      have hrest : (rest.flatMap (keyPredDecls tbl sch)).countP
          (fun p => p.typName == key && p.fieldName == fname) = 0 := by
        rw [List.countP_eq_zero]
        intro p hp
        rw [List.mem_flatMap] at hp
        obtain ⟨k2, hk2, hpk2⟩ := hp
        have hk2ne : k2 ≠ key := fun hEq => hnm (hEq ▸ hk2)
        have := countP_keyPredDecls_other tbl sch k2 key fname hk2ne
        rw [List.countP_eq_zero] at this
        exact this p hpk2
      rw [hone, hrest]
    · have hcnt : rest.count iname = 1 := by
        simp [hkey] at h
        omega
      rw [countP_keyPredDecls_other tbl sch key iname fname hkey, ih hcnt]

theorem scanInterfaces_finds (sch : Schema) (fname iname : String) (l : List String)
    (hI : (((sch.lookup iname).getD emptyTypeDef).fields).any (fun f => fname == f.name) = true)
    (honly : ∀ i ∈ l, i ≠ iname →
      (((sch.lookup i).getD emptyTypeDef).fields).any (fun f => fname == f.name) = false) :
    ∀ hmem : iname ∈ l, scanInterfaces sch fname l = iname := by
  intro hmem
  induction l with
  | nil => cases hmem
  | cons x xs ih =>
    by_cases hx : x = iname
    · subst hx
      simp only [scanInterfaces, hI, if_true]
    · have hxf := honly x (List.mem_cons_self x xs) hx
      simp only [scanInterfaces, hxf, Bool.false_eq_true, if_false]
      have hmem2 : iname ∈ xs := by
        cases hmem with
        | head => exact absurd rfl hx
        | tail _ h2 => exact h2
      exact ih (fun i hi => honly i (List.mem_cons_of_mem x hi)) hmem2

/-- C3: a field declared only on an interface implemented by a type gets its
predicate named with the interface's name as namespace when the implementing
type's block is generated, the implementing type emits no standalone
predicate declaration for it, and across the whole generated schema the
standalone declaration for that predicate appears exactly once — from the
interface's own processing. -/
theorem C3_inherited_predicate_once (tbl : DgraphTables) (sch : Schema)
    (definitions : List String) (dI t : TypeDef) (fname : String) (f0 : FieldDef)
    (hlookI : sch.lookup dI.name = some dI)
    (hkindI : dI.kind = TypeKind.interface)
    (hifcI : dI.interfaces = [])
    (hIname : dI.name ≠ "")
    (hfields : dI.fields.filter (fun f => f.name == fname) = [f0])
    (hf0ID : (f0.typeName == "ID") = false)
    (hf0kind : kindEmits ((sch.lookup f0.typeName).map (fun td => td.kind)) = true)
    (hmem : dI.name ∈ t.interfaces)
    (honly : ∀ i ∈ t.interfaces, i ≠ dI.name →
      (((sch.lookup i).getD emptyTypeDef).fields).any (fun f => fname == f.name) = false)
    (hcount : definitions.count dI.name = 1) :
    parentInterface sch t fname = dI.name ∧
    (∀ tl ∈ defTypeLines tbl sch t, tl.fieldName = fname → tl.typName = dI.name) ∧
    (∀ p ∈ defPredDecls tbl sch t, p.fieldName ≠ fname) ∧
    (allPredDecls tbl sch definitions).countP
      (fun p => p.typName == dI.name && p.fieldName == fname) = 1 := by
  have hf0mem : f0 ∈ dI.fields.filter (fun f => f.name == fname) := by
    rw [hfields]
    exact List.mem_cons_self f0 []
  have hf0name : f0.name = fname := by
    have := List.of_mem_filter hf0mem
    simpa using this
  have hIany : (((sch.lookup dI.name).getD emptyTypeDef).fields).any
      (fun f => fname == f.name) = true := by
    rw [hlookI]
    rw [List.any_eq_true]
    exact ⟨f0, List.mem_of_mem_filter hf0mem, by simp [hf0name]⟩
  have hparent : parentInterface sch t fname = dI.name := by
    unfold parentInterface
    have hne : t.interfaces ≠ [] := by
      intro hEq
      rw [hEq] at hmem
      cases hmem
    rw [if_neg (by simpa [List.isEmpty_iff] using hne)]
    exact scanInterfaces_finds sch fname dI.name t.interfaces hIany honly hmem
  refine ⟨hparent, ?_, ?_, ?_⟩
  · intro tl htl hfn
    rw [defTypeLines, List.mem_flatMap] at htl
    obtain ⟨f, hf, htlf⟩ := htl
    obtain ⟨h1, h2⟩ := processField_line_mem tbl sch t f tl htlf
    have hfn2 : f.name = fname := by rw [← h1, hfn]
    rw [hfn2] at h2
    rw [h2 (by rw [hparent]; exact hIname), hparent]
  · intro p hp hfn
    obtain ⟨_, f, hf, h2, h3⟩ := defPredDecls_mem tbl sch t p hp
    have hfn2 : f.name = fname := by rw [← h2, hfn]
    rw [hfn2] at h3
    rw [hparent] at h3
    exact hIname h3
  · rw [allPredDecls_eq_flatMap]
    refine countP_flatMap_keys_once tbl sch dI.name fname ?_ definitions hcount
    exact countP_keyPredDecls_iface tbl sch dI fname f0 hlookI hkindI hifcI hfields
      hf0ID hf0kind

theorem C3_inherited_predicate_once_witness :
    parentInterface exSchemaC3 exTypeB "name" = exIfaceA.name ∧
    (allPredDecls exTables exSchemaC3 ["A", "B"]).countP
      (fun p => p.typName == exIfaceA.name && p.fieldName == "name") = 1 :=
  ⟨(C3_inherited_predicate_once exTables exSchemaC3 ["A", "B"] exIfaceA exTypeB "name"
      ⟨"name", "String", false, []⟩ (by decide) rfl rfl (by decide) (by decide) (by decide)
      (by decide) (by decide) (by decide) (by decide)).1,
   (C3_inherited_predicate_once exTables exSchemaC3 ["A", "B"] exIfaceA exTypeB "name"
      ⟨"name", "String", false, []⟩ (by decide) rfl rfl (by decide) (by decide) (by decide)
      (by decide) (by decide) (by decide) (by decide)).2.2.2⟩
